import Mathlib

/-!
# Verification of the DataPartition subsystem (datanode package)

Shallow embedding of the data-partition lifecycle code: metadata record and
validation, metadata persistence, status recomputation, capacity accounting,
replica refresh, stop semantics, and the extent-store repair cycle.

Go machine integers are modelled as `Nat` (uint64) and `Int` (int / int64);
none of the verified properties depend on wrap-around.  Fallible operations
return `Except` / `Option`.  External collaborators that the source only
calls through an interface (extent store, stat(2), the master client) are
modelled as explicit state values or oracle parameters.
-/

namespace DataNode

/-! ## Constants (source lines 40-47) -/

def DataPartitionMetadataFileName : String := "META"

def TempMetadataFileName : String := ".meta"

/-! ## Data model -/

/-- Modelled from the spec: `proto.Peer`, `{id: u64, addr: "host:port"}`
(the `proto` package is outside the provided sources). -/
structure Peer where
  ID : Nat
  Addr : String
deriving DecidableEq, Repr

/-- `DataPartitionMetadata` (source lines 49-55). -/
structure DataPartitionMetadata where
  VolumeID : String
  PartitionID : Nat
  PartitionSize : Int
  CreateTime : String
  Peers : List Peer
deriving DecidableEq, Repr

/-- Go `strings.TrimSpace`: strip leading and trailing whitespace. -/
def trimSpace (s : String) : String := s.trim

/-- `Validate` (source lines 71-78): trims `VolumeID` in place, then rejects
when the trimmed volume id is empty, the partition id is zero, or the
partition size is zero. -/
def DataPartitionMetadata.Validate (md : DataPartitionMetadata) :
    Except String DataPartitionMetadata :=
  let md := { md with VolumeID := trimSpace md.VolumeID }
  if md.VolumeID.length = 0 ∨ md.PartitionID = 0 ∨ md.PartitionSize = 0 then
    Except.error "illegal data partition metadata"
  else
    Except.ok md

def isError : Except ε α → Bool
  | Except.error _ => true
  | Except.ok _ => false

/-! ## Stop semantics (source lines 252-260)

A Go channel is either open or closed; `close` on an already-closed channel
panics.  `Stop` guards the close only with a nil check (`if dp.stopC != nil`),
so the channel state is the whole relevant state.  A panic is modelled as the
`Except.error` outcome. -/

inductive ChanState where
  | opened
  | closed
deriving DecidableEq, Repr

/-- Go `close(ch)`: closing an already-closed channel panics. -/
def goClose : ChanState → Except String ChanState
  | ChanState.opened => Except.ok ChanState.closed
  | ChanState.closed => Except.error "close of closed channel"

/-- The stop-relevant state of a `DataPartition`: its `stopC` field,
`none` modelling a nil channel. -/
structure StopState where
  stopC : Option ChanState
deriving DecidableEq, Repr

/-- `newDataPartition` (source line 179) allocates `stopC` as a fresh open
channel. -/
def newPartitionStopState : StopState := { stopC := some ChanState.opened }

/-- `Stop` (source lines 253-260): `if dp.stopC != nil { close(dp.stopC) }`.
The subsequent `extentStore.Close()` and `stopRaft()` calls do not touch
`stopC`.  An error value is a Go panic escaping `Stop`. -/
def Stop (dp : StopState) : Except String StopState :=
  match dp.stopC with
  | none => Except.ok dp
  | some ch =>
    match goClose ch with
    | Except.ok ch₂ => Except.ok { dp with stopC := some ch₂ }
    | Except.error e => Except.error e

/-! ## Metadata persistence (source lines 293-328)

`json.Marshal` / `json.Unmarshal` are modelled at the level of the JSON
document they produce: a file holds the marshalled JSON value.  `json.Marshal`
emits struct fields in declaration order; `json.Unmarshal` is modelled as the
field lookup it performs on this record shape. -/

inductive Json where
  | null
  | str (s : String)
  | num (n : Int)
  | arr (elems : List Json)
  | obj (fields : List (String × Json))

def lookupField : List (String × Json) → String → Option Json
  | [], _ => none
  | (k, v) :: rest, key => if k = key then some v else lookupField rest key

def Json.getField : Json → String → Option Json
  | Json.obj fields, key => lookupField fields key
  | _, _ => none

/-- Modelled from the spec: `proto.Peer` marshals as `{id, addr}` (the
`proto` package is outside the provided sources). -/
def peerToJson (p : Peer) : Json :=
  Json.obj [("id", Json.num p.ID), ("addr", Json.str p.Addr)]

/-- JSON encoding of `DataPartitionMetadata`, fields in struct declaration
order (source lines 49-55, 319). -/
def metadataToJson (md : DataPartitionMetadata) : Json :=
  Json.obj [("VolumeID", Json.str md.VolumeID),
            ("PartitionID", Json.num md.PartitionID),
            ("PartitionSize", Json.num md.PartitionSize),
            ("CreateTime", Json.str md.CreateTime),
            ("Peers", Json.arr (md.Peers.map peerToJson))]

def jsonToPeer (j : Json) : Option Peer :=
  match j.getField "id", j.getField "addr" with
  | some (Json.num i), some (Json.str a) =>
    if i < 0 then none else some { ID := i.toNat, Addr := a }
  | _, _ => none

def mapOption (f : α → Option β) : List α → Option (List β)
  | [] => some []
  | a :: as =>
    match f a, mapOption f as with
    | some b, some bs => some (b :: bs)
    | _, _ => none

/-- JSON decoding of `DataPartitionMetadata` (the `json.Unmarshal` in
`LoadDataPartition`, source line 136, restricted to the document shape the
marshaller produces). -/
def jsonToMetadata (j : Json) : Option DataPartitionMetadata :=
  match j.getField "VolumeID", j.getField "PartitionID", j.getField "PartitionSize",
      j.getField "CreateTime", j.getField "Peers" with
  | some (Json.str vol), some (Json.num pid), some (Json.num psize),
      some (Json.str ct), some (Json.arr peers) =>
    if pid < 0 then none
    else
      match mapOption jsonToPeer peers with
      | some ps =>
        some { VolumeID := vol, PartitionID := pid.toNat, PartitionSize := psize,
               CreateTime := ct, Peers := ps }
      | none => none
  | _, _, _, _, _ => none

/-! ### The partition directory as a small filesystem -/

/-- The partition directory: file name to (marshalled) content. -/
abbrev Fs := List (String × Json)

def fsGet (fs : Fs) (name : String) : Option Json :=
  match fs with
  | [] => none
  | (n, c) :: rest => if n = name then some c else fsGet rest name

def fsSet (fs : Fs) (name : String) (content : Json) : Fs :=
  match fs with
  | [] => [(name, content)]
  | (n, c) :: rest =>
    if n = name then (name, content) :: rest else (n, c) :: fsSet rest name content

/-- `os.Remove` (the error of removing a missing file is ignored by the
deferred cleanup in `PersistMetadata`). -/
def fsRemove (fs : Fs) (name : String) : Fs :=
  match fs with
  | [] => []
  | (n, c) :: rest =>
    if n = name then fsRemove rest name else (n, c) :: fsRemove rest name

/-- `os.Rename src dst`: atomically replaces `dst` with the content of
`src`; fails when `src` does not exist. -/
def fsRename (fs : Fs) (src dst : String) : Except String Fs :=
  match fsGet fs src with
  | none => Except.error "no such file or directory"
  | some c => Except.ok (fsSet (fsRemove fs src) dst c)

/-! ### Peer sorting (source lines 57-69, 309-310) -/

/-- `sortedPeers.Less` (source line 63-65) as the ordering the sorted result
satisfies: ascending by id. -/
def peerLE (a b : Peer) : Prop := a.ID ≤ b.ID

instance : DecidableRel peerLE := fun a b => inferInstanceAs (Decidable (a.ID ≤ b.ID))

instance : IsTotal Peer peerLE := ⟨fun a b => Nat.le_total a.ID b.ID⟩

instance : IsTrans Peer peerLE := ⟨fun _ _ _ h₁ h₂ => Nat.le_trans h₁ h₂⟩

/-- The fields of `dataPartitionCfg` read by `PersistMetadata`
(source lines 309-318). -/
structure dataPartitionCfg where
  VolName : String
  PartitionID : Nat
  PartitionSize : Int
  Peers : List Peer
deriving DecidableEq, Repr

/-- The descriptor `PersistMetadata` writes (source lines 309-318): config
fields, peers sorted in place by `sort.Sort(sortedPeers(...))`, and
`CreateTime` stamped with the current time (`time.Now().Format(TimeLayout)`),
passed here as `now`. -/
def persistedMetadata (cfg : dataPartitionCfg) (now : String) : DataPartitionMetadata :=
  { VolumeID := cfg.VolName
    PartitionID := cfg.PartitionID
    PartitionSize := cfg.PartitionSize
    CreateTime := now
    Peers := List.insertionSort peerLE cfg.Peers }

/-- `PersistMetadata` (source lines 294-328): create-and-write the temp file
`.meta`, rename it onto `META`, then the deferred cleanup removes `.meta`
(a no-op after the rename).  `now` is the value of
`time.Now().Format(TimeLayout)`. -/
def PersistMetadata (fs : Fs) (cfg : dataPartitionCfg) (now : String) : Fs :=
  let fileName := TempMetadataFileName
  let fs₁ := fsSet fs fileName Json.null
  let metaData := metadataToJson (persistedMetadata cfg now)
  let fs₂ := fsSet fs₁ fileName metaData
  let fs₃ :=
    match fsRename fs₂ fileName DataPartitionMetadataFileName with
    | Except.ok fs₃ => fs₃
    | Except.error _ => fs₂
  fsRemove fs₃ fileName

/-! ## Status recomputation (source lines 358-372) -/

/-- Modelled from the spec: partition status constants of the `proto`
package (outside the provided sources), with the ordering
`Unavailable < ReadOnly < ReadWrite` required by the enclosing disk
manager. -/
def Unavailable : Int := -1

/-- Modelled from the spec: see `Unavailable`. -/
def ReadOnly : Int := 1

/-- Modelled from the spec: see `Unavailable`. -/
def ReadWrite : Int := 2

/-- `statusUpdate` (source lines 358-372), with the partition usage already
recomputed (`computeUsage`) and the extent count, the `MaxActiveExtents`
threshold and the disk status passed explicitly.  `math.Min` over these
small integers is exact, so it is `min` on `Int`. -/
def statusUpdate (used partitionSize extentCount maxActiveExtents diskStatus : Int) : Int :=
  let status := ReadWrite
  let status := if used ≥ partitionSize then ReadOnly else status
  let status := if extentCount ≥ maxActiveExtents then ReadOnly else status
  min status diskStatus

/-- Spec-side definition (spec P4): local status is `ReadOnly` iff
`used ≥ size ∨ extent_count ≥ MaxActiveExtents`, else `ReadWrite`. -/
def localStatus (used partitionSize extentCount maxActiveExtents : Int) : Int :=
  if used ≥ partitionSize ∨ extentCount ≥ maxActiveExtents then ReadOnly else ReadWrite

/-! ## Capacity accounting (source lines 374-405) -/

/-- Modelled from the spec: `storage.RegexpExtentFile` (defined by the
extent store, outside these sources) matches file names that are "the
extent id as a decimal integer" — a non-empty all-digit name. -/
def matchesExtentRegexp (s : String) : Bool :=
  !s.data.isEmpty && s.data.all Char.isDigit

/-- Value of a decimal digit string. -/
def parseDigits (l : List Char) : Nat :=
  l.foldl (fun n c => n * 10 + (c.toNat - 48)) 0

/-- Go `strconv.ParseUint(s, 10, 64)`: succeeds on a non-empty all-digit
string whose value fits in 64 bits. -/
def goParseUint64 (s : String) : Option Nat :=
  if s.data.isEmpty || !s.data.all Char.isDigit then none
  else if parseDigits s.data < 2 ^ 64 then some (parseDigits s.data) else none

/-- `parseFileName` (source lines 374-387): the extent id and whether the
file name is an extent file. -/
def parseFileName (filename : String) : Nat × Bool :=
  if matchesExtentRegexp filename = false then (0, false)
  else
    match goParseUint64 filename with
    | none => (0, false)
    | some extentID => (extentID, true)

/-- The fields of `os.FileInfo` used by `actualSize`: name and logical
length. -/
structure FileInfo where
  name : String
  size : Int
deriving DecidableEq, Repr

/-- The field of `syscall.Stat_t` used by `actualSize`: 512-byte blocks
allocated. -/
structure StatResult where
  blocks : Int
deriving DecidableEq, Repr

/-- Modelled from the spec: `DiskSectorSize` (a datanode constant outside
these sources) is the 512-byte sector used to bill tiny extents
(`blocks × 512`). -/
def DiskSectorSize : Int := 512

/-- `actualSize` (source lines 389-405).  `isTiny` is
`storage.IsTinyExtent` (the tiny-extent id band is defined by the extent
store, outside these sources); `statFn` is the `syscall.Stat` oracle, with
`none` modelling a stat error. -/
def actualSize (isTiny : Nat → Bool) (statFn : String → Option StatResult)
    (path : String) (finfo : FileInfo) : Int :=
  let parsed := parseFileName finfo.name
  if parsed.2 = false then finfo.size
  else if isTiny parsed.1 then
    match statFn (path ++ "/" ++ finfo.name) with
    | none => finfo.size
    | some stat => stat.blocks * DiskSectorSize
  else finfo.size

/-! ## Replica refresh (source lines 453-520) -/

/-- The `Hosts` field of the master's `DataPartition` response (`master`
package, external); `none` models a nil slice. -/
structure MasterDataPartitionResponse where
  Hosts : Option (List String)
deriving DecidableEq, Repr

structure FetchResult where
  isLeader : Bool
  replicas : List String
  err : Option String
deriving DecidableEq, Repr

/-- `fetchReplicasFromMaster` (source lines 492-520).  The HTTP request and
`json.Unmarshal` are external; `reqResult` is their combined outcome (an
error models either a failed request or an unmarshal failure, both of which
return `isLeader = false` and no usable replica list). -/
def fetchReplicasFromMaster (LocalIP : String)
    (reqResult : Except String MasterDataPartitionResponse) : FetchResult :=
  match reqResult with
  | Except.error e => { isLeader := false, replicas := [], err := some e }
  | Except.ok response =>
    let replicas :=
      match response.Hosts with
      | none => []
      | some hosts => hosts
    let isLeader :=
      match response.Hosts with
      | some (h₀ :: _) =>
        match h₀.splitOn ":" with
        | [host, _port] => if trimSpace host = LocalIP then true else false
        | _ => false
      | _ => false
    { isLeader := isLeader, replicas := replicas, err := none }

/-- The replica-related state of a `DataPartition` written by
`updateReplicas`. -/
structure ReplicaState where
  isLeader : Bool
  replicas : List String
  intervalToUpdateReplicas : Int
deriving DecidableEq, Repr

/-- `updateReplicas` (source lines 453-472): rate-limited by
`IntervalToUpdateReplica`; clears `isLeader` optimistically, fetches from
the master, and on success installs the fetched leadership flag and replica
list and updates the refresh timestamp.  `nowUnix` is
`time.Now().Unix()`. -/
def updateReplicas (LocalIP : String) (nowUnix intervalToUpdateReplica : Int)
    (st : ReplicaState) (reqResult : Except String MasterDataPartitionResponse) :
    ReplicaState × Option String :=
  if nowUnix - st.intervalToUpdateReplicas ≤ intervalToUpdateReplica then (st, none)
  else
    let st₁ := { st with isLeader := false }
    let fetched := fetchReplicasFromMaster LocalIP reqResult
    match fetched.err with
    | some e => (st₁, some e)
    | none =>
      ({ st₁ with isLeader := fetched.isLeader, replicas := fetched.replicas,
                  intervalToUpdateReplicas := nowUnix }, none)

/-- Spec-side definition: the host portion of a `"host:port"` address —
the first of exactly two colon-separated parts, whitespace-trimmed. -/
def hostPortion (addr : String) : Option String :=
  match addr.splitOn ":" with
  | [host, _] => some (trimSpace host)
  | _ => none

/-! ## Extent-store repair (source lines 531-573) -/

/-- The fields of `storage.ExtentInfo` used by the repair cycle. -/
structure ExtentInfo where
  Source : String
  FileID : Nat
  Size : Nat
  Inode : Nat
deriving DecidableEq, Repr

/-- The extent store as the repair cycle sees it: the set of existing
extents, with the inode id each extent was bound to at creation. -/
structure ExtentStore where
  extents : List (Nat × Nat)
deriving DecidableEq, Repr

/-- `store.HasExtent(extentID)`. -/
def HasExtent (store : ExtentStore) (extentID : Nat) : Bool :=
  store.extents.any (fun e => e.1 == extentID)

/-- The state change of a successful `store.Create(extentID, inode)`. -/
def storeCreate (store : ExtentStore) (extentID inode : Nat) : ExtentStore :=
  { store with extents := store.extents ++ [(extentID, inode)] }

/-- `store.Create(extentID, inode)` with an oracle deciding which creations
fail (the storage I/O is external to this subsystem); on failure the store
is unchanged. -/
def storeCreateResult (createFails : Nat → Bool) (store : ExtentStore)
    (extentID inode : Nat) : Except String ExtentStore :=
  if createFails extentID then Except.error "create failed"
  else Except.ok (storeCreate store extentID inode)

structure DataPartitionRepairTask where
  ExtentsToBeCreated : List ExtentInfo
  ExtentsToBeRepaired : List ExtentInfo
deriving DecidableEq, Repr

/-- The first loop of `DoExtentStoreRepair` (source lines 536-551), over
`ExtentsToBeCreated`, threading the store and the `ExtentsToBeRepaired`
accumulator.  `isTiny` is `storage.IsTinyExtent` (defined by the extent
store, outside these sources). -/
def repairCreateLoop (isTiny createFails : Nat → Bool) (store : ExtentStore)
    (toCreate : List ExtentInfo) (repaired : List ExtentInfo) :
    ExtentStore × List ExtentInfo :=
  match toCreate with
  | [] => (store, repaired)
  | extentInfo :: rest =>
    if isTiny extentInfo.FileID then
      repairCreateLoop isTiny createFails store rest repaired
    else if HasExtent store extentInfo.FileID then
      repairCreateLoop isTiny createFails store rest
        (repaired ++ [{ Source := extentInfo.Source, FileID := extentInfo.FileID,
                        Size := extentInfo.Size, Inode := 0 }])
    else
      match storeCreateResult createFails store extentInfo.FileID extentInfo.Inode with
      | Except.error _ => repairCreateLoop isTiny createFails store rest repaired
      | Except.ok store₂ =>
        repairCreateLoop isTiny createFails store₂ rest
          (repaired ++ [{ Source := extentInfo.Source, FileID := extentInfo.FileID,
                          Size := extentInfo.Size, Inode := 0 }])

/-- The create-phase of `DoExtentStoreRepair` (source lines 534-551): the
resulting store and the task with its augmented `ExtentsToBeRepaired`. -/
def DoExtentStoreRepairCreatePhase (isTiny createFails : Nat → Bool)
    (store : ExtentStore) (task : DataPartitionRepairTask) :
    ExtentStore × DataPartitionRepairTask :=
  let result :=
    repairCreateLoop isTiny createFails store task.ExtentsToBeCreated task.ExtentsToBeRepaired
  (result.1, { task with ExtentsToBeRepaired := result.2 })

/-- Spec-side step, following the claim's case analysis for one entry of
`extents_to_be_created`: a tiny-extent id is skipped; an extent that already
exists is appended to the repaired list without being created; a missing
extent is created (bound to the entry's inode id) and appended only if
creation succeeds; a creation error leaves the state unchanged and the
cycle continues. -/
def repairCreateClaimStep (isTiny createFails : Nat → Bool)
    (acc : ExtentStore × List ExtentInfo) (entry : ExtentInfo) :
    ExtentStore × List ExtentInfo :=
  if isTiny entry.FileID then acc
  else if HasExtent acc.1 entry.FileID then
    (acc.1, acc.2 ++ [{ Source := entry.Source, FileID := entry.FileID,
                        Size := entry.Size, Inode := 0 }])
  else if createFails entry.FileID then acc
  else (storeCreate acc.1 entry.FileID entry.Inode,
        acc.2 ++ [{ Source := entry.Source, FileID := entry.FileID,
                    Size := entry.Size, Inode := 0 }])

/-! ### The dispatch loop of `DoExtentStoreRepair` (source lines 552-573)

The loop is modelled by the sequence of scheduling events it performs:
`spawn` for each `go dp.doStreamExtentFixRepair(wg, ...)` and `waitAll` for
each `wg.Wait()`.  A spawned worker is in flight until the next `waitAll`,
which blocks until the whole wait group has drained. -/

inductive RepairEvent where
  | spawn
  | waitAll
deriving DecidableEq, Repr

/-- The dispatch loop: entries whose extent is gone are skipped; after every
`numParallel`-th dispatch (`recoverIndex % NumOfFilesToRecoverInParallel == 0`)
the loop waits for the outstanding workers; a final `wg.Wait()` closes the
cycle. -/
def repairDispatchLoop (store : ExtentStore) (numParallel : Nat)
    (toRepair : List ExtentInfo) (recoverIndex : Nat) : List RepairEvent :=
  match toRepair with
  | [] => [RepairEvent.waitAll]
  | extentInfo :: rest =>
    if HasExtent store extentInfo.FileID = false then
      repairDispatchLoop store numParallel rest recoverIndex
    else if (recoverIndex + 1) % numParallel = 0 then
      RepairEvent.spawn :: RepairEvent.waitAll ::
        repairDispatchLoop store numParallel rest (recoverIndex + 1)
    else
      RepairEvent.spawn :: repairDispatchLoop store numParallel rest (recoverIndex + 1)

/-- The scheduling trace of the dispatch half of `DoExtentStoreRepair`
(`recoverIndex` starts at zero, source line 554). -/
def DoExtentStoreRepairDispatchTrace (store : ExtentStore) (numParallel : Nat)
    (toRepair : List ExtentInfo) : List RepairEvent :=
  repairDispatchLoop store numParallel toRepair 0

/-- Number of in-flight workers after a sequence of scheduling events,
starting from `c` in-flight workers. -/
def inFlightFrom (c : Nat) : List RepairEvent → Nat
  | [] => c
  | RepairEvent.spawn :: rest => inFlightFrom (c + 1) rest
  | RepairEvent.waitAll :: rest => inFlightFrom 0 rest

/-- Number of in-flight workers after a sequence of scheduling events. -/
def inFlight (evs : List RepairEvent) : Nat := inFlightFrom 0 evs

/-! ## Theorems -/

/-- A Go `len(s) == 0` test on a string is the same as `s == ""`. -/
theorem length_eq_zero_iff_empty (s : String) : s.length = 0 ↔ s = "" := by
  cases s with
  | mk data =>
    cases data with
    | nil => exact ⟨fun _ => rfl, fun _ => rfl⟩
    | cons c cs =>
      constructor
      · intro h
        simp [String.length] at h
      · intro h
        have hd := congrArg String.data h
        exact absurd hd (List.cons_ne_nil c cs)

/-- C7: `Validate` rejects a descriptor iff its volume id is empty after
trimming whitespace, or its partition id is zero, or its partition size is
zero; every other descriptor is accepted. -/
theorem validate_rejects_iff (md : DataPartitionMetadata) :
    isError md.Validate = true ↔
      trimSpace md.VolumeID = "" ∨ md.PartitionID = 0 ∨ md.PartitionSize = 0 := by
  simp only [DataPartitionMetadata.Validate]
  by_cases h : (trimSpace md.VolumeID).length = 0 ∨ md.PartitionID = 0 ∨ md.PartitionSize = 0
  · rw [if_pos h]
    constructor
    · intro _
      rcases h with h | h
      · exact Or.inl ((length_eq_zero_iff_empty _).mp h)
      · exact Or.inr h
    · intro _
      rfl
  · rw [if_neg h]
    constructor
    · intro hh
      simp [isError] at hh
    · intro hc
      apply absurd _ h
      rcases hc with hc | hc
      · exact Or.inl ((length_eq_zero_iff_empty _).mpr hc)
      · exact Or.inr hc

/-- C1 (code bug evidence): calling `Stop` twice on a freshly created
partition panics — the second `close(dp.stopC)` closes an already-closed,
non-nil channel, which the nil guard does not prevent. -/
theorem stop_twice_panics :
    (match Stop newPartitionStopState with
     | Except.ok dp₂ => Stop dp₂
     | Except.error e => Except.error e) =
      Except.error "close of closed channel" := by
  rfl

theorem fsGet_fsSet_self (fs : Fs) (n : String) (c : Json) :
    fsGet (fsSet fs n c) n = some c := by
  induction fs with
  | nil => simp [fsSet, fsGet]
  | cons e rest ih =>
    obtain ⟨m, v⟩ := e
    by_cases h : m = n
    · simp [fsSet, fsGet, h]
    · simp [fsSet, fsGet, h, ih]

theorem fsGet_fsSet_other (fs : Fs) (n m : String) (c : Json) (h : m ≠ n) :
    fsGet (fsSet fs n c) m = fsGet fs m := by
  induction fs with
  | nil => simp [fsSet, fsGet, Ne.symm h]
  | cons e rest ih =>
    obtain ⟨k, v⟩ := e
    by_cases hk : k = n
    · subst hk
      simp [fsSet, fsGet, Ne.symm h]
    · by_cases hm : k = m <;> simp [fsSet, fsGet, hk, hm, h, ih]

theorem fsGet_fsRemove_self (fs : Fs) (n : String) :
    fsGet (fsRemove fs n) n = none := by
  induction fs with
  | nil => simp [fsRemove, fsGet]
  | cons e rest ih =>
    obtain ⟨m, v⟩ := e
    by_cases h : m = n
    · simp [fsRemove, h, ih]
    · simp [fsRemove, fsGet, h, ih]

theorem fsGet_fsRemove_other (fs : Fs) (n m : String) (h : m ≠ n) :
    fsGet (fsRemove fs n) m = fsGet fs m := by
  induction fs with
  | nil => simp [fsRemove]
  | cons e rest ih =>
    obtain ⟨k, v⟩ := e
    by_cases hk : k = n
    · subst hk
      simp [fsRemove, fsGet, Ne.symm h, ih]
    · simp [fsRemove, fsGet, hk, ih]

theorem fsRename_of_get (fs : Fs) (src dst : String) (c : Json)
    (h : fsGet fs src = some c) :
    fsRename fs src dst = Except.ok (fsSet (fsRemove fs src) dst c) := by
  simp [fsRename, h]

/-- `PersistMetadata` unfolded through the always-successful rename. -/
theorem persistMetadata_eq (fs : Fs) (cfg : dataPartitionCfg) (now : String) :
    PersistMetadata fs cfg now =
      fsRemove
        (fsSet
          (fsRemove
            (fsSet (fsSet fs TempMetadataFileName Json.null) TempMetadataFileName
              (metadataToJson (persistedMetadata cfg now)))
            TempMetadataFileName)
          DataPartitionMetadataFileName (metadataToJson (persistedMetadata cfg now)))
        TempMetadataFileName := by
  have h := fsRename_of_get
    (fsSet (fsSet fs TempMetadataFileName Json.null) TempMetadataFileName
      (metadataToJson (persistedMetadata cfg now)))
    TempMetadataFileName DataPartitionMetadataFileName
    (metadataToJson (persistedMetadata cfg now)) (fsGet_fsSet_self _ _ _)
  simp only [PersistMetadata, h]

theorem jsonToPeer_peerToJson (p : Peer) : jsonToPeer (peerToJson p) = some p := by
  show (if (p.ID : Int) < 0 then none
        else some { ID := (p.ID : Int).toNat, Addr := p.Addr }) = some p
  rw [if_neg (Int.not_lt.mpr (Int.natCast_nonneg p.ID))]
  rfl

theorem mapOption_jsonToPeer_map (ps : List Peer) :
    mapOption jsonToPeer (ps.map peerToJson) = some ps := by
  induction ps with
  | nil => rfl
  | cons p rest ih => simp [mapOption, jsonToPeer_peerToJson, ih]

/-- The metadata codec round-trips: re-reading the marshalled descriptor
yields the descriptor that was written. -/
theorem jsonToMetadata_metadataToJson (md : DataPartitionMetadata) :
    jsonToMetadata (metadataToJson md) = some md := by
  show (if (md.PartitionID : Int) < 0 then none
        else
          match mapOption jsonToPeer (md.Peers.map peerToJson) with
          | some ps =>
            some { VolumeID := md.VolumeID, PartitionID := (md.PartitionID : Int).toNat,
                   PartitionSize := md.PartitionSize, CreateTime := md.CreateTime, Peers := ps }
          | none => none) = some md
  rw [if_neg (Int.not_lt.mpr (Int.natCast_nonneg md.PartitionID)),
    mapOption_jsonToPeer_map]
  rfl

/-- C6: after `PersistMetadata` returns successfully, `META` holds the
marshalled descriptor, the temp file `.meta` is gone, parsing `META` yields
a descriptor equal to the one written, and the written peers are sorted
ascending by id (a permutation of the configured peers). -/
theorem persistMetadata_spec (fs : Fs) (cfg : dataPartitionCfg) (now : String) :
    fsGet (PersistMetadata fs cfg now) DataPartitionMetadataFileName =
        some (metadataToJson (persistedMetadata cfg now)) ∧
    fsGet (PersistMetadata fs cfg now) TempMetadataFileName = none ∧
    jsonToMetadata (metadataToJson (persistedMetadata cfg now)) =
        some (persistedMetadata cfg now) ∧
    List.Sorted peerLE (persistedMetadata cfg now).Peers ∧
    (persistedMetadata cfg now).Peers.Perm cfg.Peers := by
  have hne : DataPartitionMetadataFileName ≠ TempMetadataFileName := by decide
  rw [persistMetadata_eq]
  refine ⟨?_, ?_, jsonToMetadata_metadataToJson _, ?_, ?_⟩
  · rw [fsGet_fsRemove_other _ _ _ hne, fsGet_fsSet_self]
  · rw [fsGet_fsRemove_self]
  · exact List.sorted_insertionSort peerLE cfg.Peers
  · exact List.perm_insertionSort peerLE cfg.Peers

def cfgC2 : dataPartitionCfg :=
  { VolName := "vol", PartitionID := 7, PartitionSize := 1024,
    Peers := [{ ID := 1, Addr := "h1:9000" }] }

/-- C2 (code bug evidence): `PersistMetadata` stamps `CreateTime` with the
current time on every call (source line 317), so a later persist rewrites
`META` with a different `CreateTime` than the one recorded at creation. -/
theorem persistMetadata_restamps_createTime :
    (persistedMetadata cfgC2 "2020-01-01 00:00:00").CreateTime = "2020-01-01 00:00:00" ∧
    fsGet
        (PersistMetadata (PersistMetadata [] cfgC2 "2020-01-01 00:00:00") cfgC2
          "2020-01-02 00:00:00")
        DataPartitionMetadataFileName =
      some (metadataToJson (persistedMetadata cfgC2 "2020-01-02 00:00:00")) ∧
    (persistedMetadata cfgC2 "2020-01-02 00:00:00").CreateTime ≠
      (persistedMetadata cfgC2 "2020-01-01 00:00:00").CreateTime := by
  refine ⟨rfl, rfl, by decide⟩

/-- C3: after `statusUpdate`, the partition status equals
`min(local, disk)` where `local = ReadOnly` iff
`used ≥ partitionSize ∨ extentCount ≥ MaxActiveExtents` and `ReadWrite`
otherwise, and the status constants are ordered
`Unavailable < ReadOnly < ReadWrite`. -/
theorem statusUpdate_eq_min_local_disk
    (used partitionSize extentCount maxActiveExtents diskStatus : Int) :
    statusUpdate used partitionSize extentCount maxActiveExtents diskStatus =
      min (localStatus used partitionSize extentCount maxActiveExtents) diskStatus ∧
    Unavailable < ReadOnly ∧ ReadOnly < ReadWrite := by
  refine ⟨?_, by decide, by decide⟩
  unfold statusUpdate localStatus
  by_cases h1 : used ≥ partitionSize <;> by_cases h2 : extentCount ≥ maxActiveExtents <;>
    simp [h1, h2]

theorem repairCreateLoop_eq_foldl (isTiny createFails : Nat → Bool)
    (toCreate : List ExtentInfo) :
    ∀ store repaired,
      repairCreateLoop isTiny createFails store toCreate repaired =
        toCreate.foldl (repairCreateClaimStep isTiny createFails) (store, repaired) := by
  induction toCreate with
  | nil => intro store repaired; rfl
  | cons e rest ih =>
    intro store repaired
    cases h₁ : isTiny e.FileID with
    | true => simp [repairCreateLoop, repairCreateClaimStep, h₁, ih]
    | false =>
      cases h₂ : HasExtent store e.FileID with
      | true => simp [repairCreateLoop, repairCreateClaimStep, h₁, h₂, ih]
      | false =>
        cases h₃ : createFails e.FileID with
        | true =>
          simp [repairCreateLoop, repairCreateClaimStep, storeCreateResult, h₁, h₂, h₃, ih]
        | false =>
          simp [repairCreateLoop, repairCreateClaimStep, storeCreateResult, h₁, h₂, h₃, ih]

/-- C4: the create-phase of `DoExtentStoreRepair` processes each entry of
`ExtentsToBeCreated` exactly as the claim's per-entry case analysis
(`repairCreateClaimStep`) folded over the list: tiny ids are skipped,
existing extents are appended without creation, missing extents are created
bound to the entry's inode and appended only on success, and creation errors
never abort the cycle; `ExtentsToBeCreated` itself is unchanged. -/
theorem doExtentStoreRepair_create_phase_spec (isTiny createFails : Nat → Bool)
    (store : ExtentStore) (task : DataPartitionRepairTask) :
    DoExtentStoreRepairCreatePhase isTiny createFails store task =
      ((task.ExtentsToBeCreated.foldl (repairCreateClaimStep isTiny createFails)
          (store, task.ExtentsToBeRepaired)).1,
       { ExtentsToBeCreated := task.ExtentsToBeCreated,
         ExtentsToBeRepaired :=
           (task.ExtentsToBeCreated.foldl (repairCreateClaimStep isTiny createFails)
             (store, task.ExtentsToBeRepaired)).2 }) := by
  simp only [DoExtentStoreRepairCreatePhase,
    repairCreateLoop_eq_foldl isTiny createFails task.ExtentsToBeCreated store
      task.ExtentsToBeRepaired]

theorem succ_mod_of_ne_zero (r N : Nat) (hN : 0 < N) (h : (r + 1) % N ≠ 0) :
    (r + 1) % N = r % N + 1 := by
  have hsplit : N * (r / N) + r % N = r := Nat.div_add_mod r N
  have hr : r + 1 = N * (r / N) + (r % N + 1) := by omega
  have hmod : (r + 1) % N = (r % N + 1) % N := by
    rw [hr, Nat.mul_add_mod]
  have hlt : r % N < N := Nat.mod_lt _ hN
  rcases Nat.lt_or_ge (r % N + 1) N with hlt₂ | hge
  · rw [hmod, Nat.mod_eq_of_lt hlt₂]
  · have heq : r % N + 1 = N := by omega
    rw [hmod, heq, Nat.mod_self] at h
    exact absurd rfl h

theorem repairDispatchLoop_invariant (store : ExtentStore) (N : Nat) (hN : 0 < N)
    (toRepair : List ExtentInfo) :
    ∀ r,
      (∀ p, p <+: repairDispatchLoop store N toRepair r →
          inFlightFrom (r % N) p ≤ N) ∧
      inFlightFrom (r % N) (repairDispatchLoop store N toRepair r) = 0 := by
  induction toRepair with
  | nil =>
    intro r
    constructor
    · intro p hp
      simp only [repairDispatchLoop] at hp
      rw [List.prefix_cons_iff] at hp
      rcases hp with hp | ⟨t, ht, hpre⟩
      · subst hp
        exact Nat.le_of_lt (Nat.mod_lt _ hN)
      · rw [List.prefix_nil] at hpre
        subst hpre
        subst ht
        simp [inFlightFrom]
    · rfl
  | cons e rest ih =>
    intro r
    cases hh : HasExtent store e.FileID with
    | false =>
      have hloop : repairDispatchLoop store N (e :: rest) r =
          repairDispatchLoop store N rest r := by
        simp [repairDispatchLoop, hh]
      rw [hloop]
      exact ih r
    | true =>
      cases hmod : (r + 1) % N with
      | zero =>
        have hloop : repairDispatchLoop store N (e :: rest) r =
            RepairEvent.spawn :: RepairEvent.waitAll ::
              repairDispatchLoop store N rest (r + 1) := by
          simp [repairDispatchLoop, hh, hmod]
        rw [hloop]
        constructor
        · intro p hp
          rw [List.prefix_cons_iff] at hp
          rcases hp with hp | ⟨t, ht, hpre⟩
          · subst hp
            exact Nat.le_of_lt (Nat.mod_lt _ hN)
          · subst ht
            rw [List.prefix_cons_iff] at hpre
            rcases hpre with hpre | ⟨t₂, ht₂, hpre₂⟩
            · subst hpre
              show r % N + 1 ≤ N
              exact Nat.mod_lt _ hN
            · subst ht₂
              show inFlightFrom 0 t₂ ≤ N
              have h₁ := (ih (r + 1)).1 t₂ hpre₂
              rw [hmod] at h₁
              exact h₁
        · show inFlightFrom 0 (repairDispatchLoop store N rest (r + 1)) = 0
          have h₂ := (ih (r + 1)).2
          rw [hmod] at h₂
          exact h₂
      | succ k =>
        have hne : (r + 1) % N ≠ 0 := by rw [hmod]; exact Nat.succ_ne_zero k
        have hloop : repairDispatchLoop store N (e :: rest) r =
            RepairEvent.spawn :: repairDispatchLoop store N rest (r + 1) := by
          simp [repairDispatchLoop, hh, hne]
        rw [hloop]
        have hstep : r % N + 1 = (r + 1) % N :=
          (succ_mod_of_ne_zero r N hN hne).symm
        constructor
        · intro p hp
          rw [List.prefix_cons_iff] at hp
          rcases hp with hp | ⟨t, ht, hpre⟩
          · subst hp
            exact Nat.le_of_lt (Nat.mod_lt _ hN)
          · subst ht
            show inFlightFrom (r % N + 1) t ≤ N
            rw [hstep]
            exact (ih (r + 1)).1 t hpre
        · show inFlightFrom (r % N + 1) (repairDispatchLoop store N rest (r + 1)) = 0
          rw [hstep]
          exact (ih (r + 1)).2

/-- C9: along the scheduling trace of the dispatch half of
`DoExtentStoreRepair`, the number of in-flight stream-repair workers never
exceeds `NumOfFilesToRecoverInParallel` (`numParallel`), and all workers
have drained when the trace ends. -/
theorem doExtentStoreRepair_bounded_fanout (store : ExtentStore) (numParallel : Nat)
    (toRepair : List ExtentInfo) (hN : 0 < numParallel) :
    (∀ p, p <+: DoExtentStoreRepairDispatchTrace store numParallel toRepair →
        inFlight p ≤ numParallel) ∧
    inFlight (DoExtentStoreRepairDispatchTrace store numParallel toRepair) = 0 := by
  have h := repairDispatchLoop_invariant store numParallel hN toRepair 0
  rw [Nat.zero_mod] at h
  exact h

/-- C9 witness: the bound holds on a concrete trace with
`numParallel = 2` and three repairable extents. -/
theorem doExtentStoreRepair_bounded_fanout_witness :
    (∀ p, p <+: DoExtentStoreRepairDispatchTrace
          { extents := [(10, 1), (11, 1), (12, 1)] } 2
          [{ Source := "s", FileID := 10, Size := 8, Inode := 0 },
           { Source := "s", FileID := 11, Size := 8, Inode := 0 },
           { Source := "s", FileID := 12, Size := 8, Inode := 0 }] →
        inFlight p ≤ 2) ∧
    inFlight (DoExtentStoreRepairDispatchTrace
        { extents := [(10, 1), (11, 1), (12, 1)] } 2
        [{ Source := "s", FileID := 10, Size := 8, Inode := 0 },
         { Source := "s", FileID := 11, Size := 8, Inode := 0 },
         { Source := "s", FileID := 12, Size := 8, Inode := 0 }]) = 0 :=
  doExtentStoreRepair_bounded_fanout
    { extents := [(10, 1), (11, 1), (12, 1)] } 2
    [{ Source := "s", FileID := 10, Size := 8, Inode := 0 },
     { Source := "s", FileID := 11, Size := 8, Inode := 0 },
     { Source := "s", FileID := 12, Size := 8, Inode := 0 }]
    (by decide)

/-- C5: `actualSize` returns the file's logical length, except when the
file name matches the extent regexp, parses as a 64-bit extent id
(`parseFileName` succeeds exactly when both hold), and the id is tiny, in
which case it returns `allocated_blocks * 512` as reported by a successful
filesystem stat. -/
theorem actualSize_spec (isTiny : Nat → Bool) (statFn : String → Option StatResult)
    (path : String) (finfo : FileInfo) (stat : StatResult) :
    (parseFileName finfo.name).2 =
        (matchesExtentRegexp finfo.name && (goParseUint64 finfo.name).isSome) ∧
    ((parseFileName finfo.name).2 = false ∨ isTiny (parseFileName finfo.name).1 = false →
        actualSize isTiny statFn path finfo = finfo.size) ∧
    ((parseFileName finfo.name).2 = true → isTiny (parseFileName finfo.name).1 = true →
        statFn (path ++ "/" ++ finfo.name) = some stat →
        actualSize isTiny statFn path finfo = stat.blocks * DiskSectorSize) := by
  refine ⟨?_, ?_, ?_⟩
  · unfold parseFileName
    cases hm : matchesExtentRegexp finfo.name with
    | false => simp [hm]
    | true =>
      cases hp : goParseUint64 finfo.name with
      | none => simp [hm, hp]
      | some v => simp [hm, hp]
  · intro h
    unfold actualSize
    rcases h with h | h
    · simp [h]
    · cases hb : (parseFileName finfo.name).2 with
      | false => simp [hb]
      | true => simp [hb, h]
  · intro h₁ h₂ h₃
    unfold actualSize
    simp [h₁, h₂, h₃]

/-- C5 witness: a tiny extent file ("3", stat reporting 8192 blocks) is
billed `8192 * 512`; a non-extent file keeps its logical length. -/
theorem actualSize_spec_witness :
    actualSize (fun id => decide (id ≤ 64)) (fun _ => some { blocks := 8192 }) "/d"
        { name := "3", size := 134217728 } = 8192 * 512 ∧
    actualSize (fun id => decide (id ≤ 64)) (fun _ => some { blocks := 8192 }) "/d"
        { name := "META", size := 100 } = 100 :=
  ⟨(actualSize_spec (fun id => decide (id ≤ 64)) (fun _ => some { blocks := 8192 }) "/d"
      { name := "3", size := 134217728 } { blocks := 8192 }).2.2 rfl rfl rfl,
   (actualSize_spec (fun id => decide (id ≤ 64)) (fun _ => some { blocks := 8192 }) "/d"
      { name := "META", size := 100 } { blocks := 8192 }).2.1 (Or.inl rfl)⟩

/-- C10: when the stat of a tiny-extent file fails, `actualSize` silently
falls back to the file's logical length, so the function is total and the
tiny extent is billed its logical size. -/
theorem actualSize_statError_fallback (isTiny : Nat → Bool)
    (statFn : String → Option StatResult) (path : String) (finfo : FileInfo)
    (h₁ : (parseFileName finfo.name).2 = true)
    (h₂ : isTiny (parseFileName finfo.name).1 = true)
    (h₃ : statFn (path ++ "/" ++ finfo.name) = none) :
    actualSize isTiny statFn path finfo = finfo.size := by
  unfold actualSize
  simp [h₁, h₂, h₃]

/-- C10 witness: the tiny extent file "3" whose stat fails is billed its
logical length. -/
theorem actualSize_statError_fallback_witness :
    actualSize (fun id => decide (id ≤ 64)) (fun _ => none) "/d"
        { name := "3", size := 134217728 } = 134217728 :=
  actualSize_statError_fallback (fun id => decide (id ≤ 64)) (fun _ => none) "/d"
    { name := "3", size := 134217728 } rfl rfl rfl

theorem fetchReplicas_isLeader_iff (LocalIP : String)
    (response : MasterDataPartitionResponse) :
    (fetchReplicasFromMaster LocalIP (Except.ok response)).isLeader = true ↔
      ∃ h₀ rest, response.Hosts = some (h₀ :: rest) ∧ hostPortion h₀ = some LocalIP := by
  cases hH : response.Hosts with
  | none => simp [fetchReplicasFromMaster, hH]
  | some hosts =>
    cases hosts with
    | nil => simp [fetchReplicasFromMaster, hH]
    | cons h₀ t =>
      rcases hsp : h₀.splitOn ":" with _ | ⟨a, _ | ⟨b, _ | ⟨c, l⟩⟩⟩
      · simp [fetchReplicasFromMaster, hH, hostPortion, hsp]
      · simp [fetchReplicasFromMaster, hH, hostPortion, hsp]
      · by_cases htrim : trimSpace a = LocalIP
        · simp [fetchReplicasFromMaster, hH, hostPortion, hsp, htrim]
        · simp [fetchReplicasFromMaster, hH, hostPortion, hsp, htrim]
      · simp [fetchReplicasFromMaster, hH, hostPortion, hsp]

/-- C8: after a successful (non-rate-limited) replica refresh, `isLeader`
is true iff the returned hosts list is non-empty and the host portion of
`hosts[0]` equals the configured `LocalIP`; otherwise it is false. -/
theorem updateReplicas_isLeader_iff (LocalIP : String)
    (nowUnix intervalToUpdateReplica : Int) (st : ReplicaState)
    (response : MasterDataPartitionResponse)
    (hrate : ¬ nowUnix - st.intervalToUpdateReplicas ≤ intervalToUpdateReplica) :
    (updateReplicas LocalIP nowUnix intervalToUpdateReplica st
        (Except.ok response)).1.isLeader = true ↔
      ∃ h₀ rest, response.Hosts = some (h₀ :: rest) ∧ hostPortion h₀ = some LocalIP := by
  rw [← fetchReplicas_isLeader_iff LocalIP response]
  unfold updateReplicas
  rw [if_neg hrate]
  rfl

/-- C8 witness: with `LocalIP = "10.0.0.1"` and hosts
`["10.0.0.1:9000", "other:9000"]`, a non-rate-limited refresh sets
`isLeader`. -/
theorem updateReplicas_isLeader_iff_witness :
    ((updateReplicas "10.0.0.1" 1000 600
        { isLeader := false, replicas := [], intervalToUpdateReplicas := 0 }
        (Except.ok { Hosts := some ["10.0.0.1:9000", "other:9000"] })).1.isLeader = true ↔
      ∃ h₀ rest,
        (some ["10.0.0.1:9000", "other:9000"] : Option (List String)) = some (h₀ :: rest) ∧
        hostPortion h₀ = some "10.0.0.1") :=
  updateReplicas_isLeader_iff "10.0.0.1" 1000 600
    { isLeader := false, replicas := [], intervalToUpdateReplicas := 0 }
    { Hosts := some ["10.0.0.1:9000", "other:9000"] } (by decide)

end DataNode
